import Mathlib

/-!
Verification of the `jasmin_ldap` query layer.

This development shallowly embeds, in Lean, the parts of the library that the
checked properties talk about:

* `src/jasmin_ldap/filters.py` — the filter expression tree (`Expression`,
  `AndNode`, `OrNode`, `NotNode`) and the `and_` / `or_` / `not_` combinators;
* `src/jasmin_ldap/query.py` — `Query._split_node` (predicate-pushdown split),
  `Query.filter` (DN rebasing / empty-query short circuit),
  `FilteredQuery._compile_filter` (the local Python-side predicate compiler),
  `OrderedQuery._compile_order`, `AnnotatedQuery._run_query`,
  and the `QueryBase._cached` caching contract;
* `src/jasmin_ldap/core.py` — `ConnectionPool` (release / close_all / the
  `connection` context manager) and the exception taxonomy of
  `src/jasmin_ldap/exceptions.py`.

Python strings are modelled as `String`, Python string methods over the
underlying character list; the dynamically-typed values appearing in filter
expressions are modelled by the closed type `Val` (strings, lists of strings
and booleans, the shapes the library is used with); a Python exception
(TypeError/AttributeError at evaluation time, ValueError at compile time)
is modelled by `Option`/`none`.
-/

set_option linter.unusedVariables false

namespace JasminLdap

/-! ## Python string primitives -/

/-- Python `str.lower()`, character by character. -/
def lowerStr (s : String) : String :=
  String.mk (s.data.map Char.toLower)

/-- Python `a.startswith(b)` for strings. -/
def pyStartsWith (s pre : String) : Bool :=
  pre.data.isPrefixOf s.data

/-- Python `a.endswith(b)` for strings. -/
def pyEndsWith (s post : String) : Bool :=
  post.data.reverse.isPrefixOf s.data.reverse

/-- Python `needle in hay` for strings: substring containment. -/
def pyInStr (needle hay : String) : Bool :=
  decide (needle.data <:+: hay.data)

/-- Python `a < b` for strings: lexicographic on code points. -/
def pyStrLt : List Char → List Char → Bool
  | [], [] => false
  | [], _ :: _ => true
  | _ :: _, [] => false
  | a :: as, b :: bs =>
    if a.val < b.val then true
    else if b.val < a.val then false
    else pyStrLt as bs

/-! ## Filter values

`Val` models the Python values this library feeds into filter expressions:
a string, a list of strings (for `in` lookups and multi-valued data), or a
boolean (for `present` / `isnull`). -/

inductive Val where
  | vstr (s : String)
  | vlist (ss : List String)
  | vbool (b : Bool)
  deriving DecidableEq, Repr

/-- Python truthiness (`bool(value)`) for a `Val`. -/
def Val.truthy : Val → Bool
  | .vstr s => !s.isEmpty
  | .vlist ss => !ss.isEmpty
  | .vbool b => b

/-! ## The filter expression tree (`src/jasmin_ldap/filters.py`)

`Node.expr` is `Expression(field, lookup_type, value)` (a namedtuple whose
`lookup_type` may be `None`); `Node.and`/`Node.or` are `AndNode`/`OrNode`
holding their child tuple; `Node.not` is `NotNode`.  The source constructors
demand at least two children for `AndNode`/`OrNode`; every construction below
obeys that. -/

inductive Node where
  | expr (field : String) (lookup_type : Option String) (value : Val)
  | and (children : List Node)
  | or (children : List Node)
  | not (child : Node)
  deriving Repr

namespace Node

/-- `AndNode.children` / `OrNode.children` (empty for the leaf/NOT cases,
which have no such attribute in the source). -/
def children : Node → List Node
  | .and cs => cs
  | .or cs => cs
  | _ => []

/-- `Node.and_` (the `&` operator): `AndNode.and_` appends a child to the
existing tuple instead of nesting; on any other node it builds
`AndNode(self, other)`. -/
def and_ : Node → Node → Node
  | .and cs, other => .and (cs ++ [other])
  | n, other => .and [n, other]

/-- `Node.or_` (the `|` operator): `OrNode.or_` appends a child to the
existing tuple instead of nesting; on any other node it builds
`OrNode(self, other)`. -/
def or_ : Node → Node → Node
  | .or cs, other => .or (cs ++ [other])
  | n, other => .or [n, other]

/-- `Node.not_` (the `~` operator): `NotNode.not_` returns its child
(double-negation elimination); on any other node it builds `NotNode(self)`. -/
def not_ : Node → Node
  | .not c => c
  | n => .not n

end Node

/-- `node.lookup_type or 'exact'`: Python `or` replaces both `None` and the
empty string by `'exact'`. -/
def lookupOf (lt : Option String) : String :=
  match lt with
  | none => "exact"
  | some s => if s.isEmpty then "exact" else s

/-! ## Attribute records

`Connection.search` (`src/jasmin_ldap/core.py`) yields one dictionary per
entry: every LDAP attribute maps to a *list* of values, and the key `"dn"`
maps to the entry's distinguished name as a plain string.  `Record` models
such a dictionary with the DN pulled out; attribute keys that case-fold to
`"dn"` other than `"dn"` itself do not occur in search results and are not
modelled. -/

structure Record where
  dn : String
  attrs : List (String × List String)
  deriving DecidableEq, Repr

/-- Python `attrs.get(field, ())` for a list-valued attribute. -/
def getAttr : List (String × List String) → String → List String
  | [], _ => []
  | (k, vs) :: rest, f => if k == f then vs else getAttr rest f

/-- Python `attrs.get(field, '')` in the DN branch of
`FilteredQuery._compile_filter`: only the exact key `"dn"` holds the string
DN; any other key misses and yields the default `''`. -/
def dnGet (r : Record) (field : String) : String :=
  if field == "dn" then r.dn else ""

/-! ## The local predicate compiler (`FilteredQuery._compile_filter`)

The Python code dispatches on the lookup type with an `if`/`elif` chain; the
chain is factored here into a classification (`DnLookupKind`,
`ElemLookupKind`, in source order) followed by the per-branch evaluator.
A Python runtime exception (`TypeError`/`AttributeError` from applying a
string method or operator to a value of the wrong type) is `none`. -/

inductive DnLookupKind where
  | kin | kexact | kcontains | kstartswith | kendswith | kunsupported
  deriving DecidableEq, Repr

/-- The `if`/`elif` chain of the DN branch, in source order: `'in'`, then
`endswith('exact')`, then `endswith('contains') or lookup == 'search'`, then
`endswith('startswith')`, then `endswith('endswith')`, else unsupported. -/
def dnLookupKind (l : String) : DnLookupKind :=
  if l == "in" then .kin
  else if pyEndsWith l "exact" then .kexact
  else if pyEndsWith l "contains" || l == "search" then .kcontains
  else if pyEndsWith l "startswith" then .kstartswith
  else if pyEndsWith l "endswith" then .kendswith
  else .kunsupported

/-- The DN branch of `FilteredQuery._compile_filter`: every comparison
lower-cases both sides and treats the record's DN as one string. -/
def dnFunc (l : String) (value : Val) (dn : String) : Option Bool :=
  match dnLookupKind l with
  | .kin =>
    match value with
    | .vstr s => some ((s.data.map (fun c => String.mk [c.toLower])).contains (lowerStr dn))
    | .vlist ss => some ((ss.map lowerStr).contains (lowerStr dn))
    | .vbool _ => none
  | .kexact =>
    match value with
    | .vstr s => some (lowerStr dn == lowerStr s)
    | _ => none
  | .kcontains =>
    match value with
    | .vstr s => some (pyInStr (lowerStr s) (lowerStr dn))
    | _ => none
  | .kstartswith =>
    match value with
    | .vstr s => some (pyStartsWith (lowerStr dn) (lowerStr s))
    | _ => none
  | .kendswith =>
    match value with
    | .vstr s => some (pyEndsWith (lowerStr dn) (lowerStr s))
    | _ => none
  | .kunsupported => none

inductive ElemLookupKind where
  | ein | eexact | eiexact | econtains | eicontains | estartswith | eistartswith
  | eendswith | eiendswith | egt | egte | elt | elte | eunsupported
  deriving DecidableEq, Repr

/-- The `if`/`elif` chain of the element-wise branch, in source order
(`icontains` and `search` share a branch). -/
def elemLookupKind (l : String) : ElemLookupKind :=
  if l == "in" then .ein
  else if l == "exact" then .eexact
  else if l == "iexact" then .eiexact
  else if l == "contains" then .econtains
  else if l == "icontains" || l == "search" then .eicontains
  else if l == "startswith" then .estartswith
  else if l == "istartswith" then .eistartswith
  else if l == "endswith" then .eendswith
  else if l == "iendswith" then .eiendswith
  else if l == "gt" then .egt
  else if l == "gte" then .egte
  else if l == "lt" then .elt
  else if l == "lte" then .elte
  else .eunsupported

/-- One element-wise test (`elem_func` in the source) applied to a single
attribute value `el`.  Python dynamic typing: `el == value` across types is
`False`; `el in value` iterates a list or searches a substring but raises on
a boolean; the remaining lookups raise unless `value` is a string. -/
def elemFunc (l : String) (value : Val) (el : String) : Option Bool :=
  match elemLookupKind l with
  | .ein =>
    match value with
    | .vstr s => some (pyInStr el s)
    | .vlist ss => some (ss.contains el)
    | .vbool _ => none
  | .eexact =>
    some (match value with | .vstr s => el == s | _ => false)
  | .eiexact =>
    match value with | .vstr s => some (lowerStr el == lowerStr s) | _ => none
  | .econtains =>
    match value with | .vstr s => some (pyInStr s el) | _ => none
  | .eicontains =>
    match value with | .vstr s => some (pyInStr (lowerStr s) (lowerStr el)) | _ => none
  | .estartswith =>
    match value with | .vstr s => some (pyStartsWith el s) | _ => none
  | .eistartswith =>
    match value with | .vstr s => some (pyStartsWith (lowerStr el) (lowerStr s)) | _ => none
  | .eendswith =>
    match value with | .vstr s => some (pyEndsWith el s) | _ => none
  | .eiendswith =>
    match value with | .vstr s => some (pyEndsWith (lowerStr el) (lowerStr s)) | _ => none
  | .egt =>
    match value with | .vstr s => some (pyStrLt s.data el.data) | _ => none
  | .egte =>
    match value with | .vstr s => some (!pyStrLt el.data s.data) | _ => none
  | .elt =>
    match value with | .vstr s => some (pyStrLt el.data s.data) | _ => none
  | .elte =>
    match value with | .vstr s => some (!pyStrLt s.data el.data) | _ => none
  | .eunsupported => none

/-- Python `any(elem_func(v) for v in attrs.get(field, ()))`: short-circuits
on the first `True`; an exception raised by an element reached during the
scan aborts the whole evaluation. -/
def anyElem (g : String → Option Bool) : List String → Option Bool
  | [] => some false
  | x :: xs =>
    match g x with
    | none => none
    | some true => some true
    | some false => anyElem g xs

/-- One `Expression` leaf evaluated against a record, following the branch
order of `FilteredQuery._compile_filter`: DN fields first, then `present`,
then `isnull`, then the element-wise lookups. -/
def evalExpr (field : String) (l : String) (value : Val) (r : Record) : Option Bool :=
  if lowerStr field == "dn" then dnFunc l value (dnGet r field)
  else if l == "present" then some (value.truthy == !(getAttr r.attrs field).isEmpty)
  else if l == "isnull" then some (value.truthy != !(getAttr r.attrs field).isEmpty)
  else anyElem (elemFunc l value) (getAttr r.attrs field)

/-! Runtime evaluation of a compiled filter node against a record.
`all(...)`/`any(...)` over the child functions short-circuit exactly as the
generator expressions in the source do. -/
mutual
def evalNode : Node → Record → Option Bool
  | .expr f lt v, r => evalExpr f (lookupOf lt) v r
  | .and cs, r => evalAll cs r
  | .or cs, r => evalAny cs r
  | .not c, r =>
    match evalNode c r with
    | none => none
    | some b => some (!b)

def evalAll : List Node → Record → Option Bool
  | [], _ => some true
  | c :: cs, r =>
    match evalNode c r with
    | none => none
    | some false => some false
    | some true => evalAll cs r

def evalAny : List Node → Record → Option Bool
  | [], _ => some false
  | c :: cs, r =>
    match evalNode c r with
    | none => none
    | some true => some true
    | some false => evalAny cs r
end

/-! `FilteredQuery._compile_filter` compiles the whole tree before any record
is tested, raising `ValueError` on an unsupported lookup type anywhere in the
tree.  `supported` is that compile-time success condition. -/
mutual
def supported : Node → Bool
  | .expr f lt _ =>
    let l := lookupOf lt
    if lowerStr f == "dn" then dnLookupKind l != .kunsupported
    else if l == "present" || l == "isnull" then true
    else elemLookupKind l != .eunsupported
  | .and cs => supportedList cs
  | .or cs => supportedList cs
  | .not c => supported c

def supportedList : List Node → Bool
  | [] => true
  | c :: cs => supported c && supportedList cs
end

/-- Observable result of compiling a node with `FilteredQuery._compile_filter`
and applying the compiled predicate to a record: `none` on a `ValueError`
during compilation or a type error during evaluation. -/
def localEval (n : Node) (r : Record) : Option Bool :=
  if supported n then evalNode n r else none

/-! ## Well-typed filters

`checked` strengthens `supported` with the value-shape constraints under
which the dynamically typed Python evaluator cannot raise at runtime:
an `in` lookup carries a string or a list of strings, `exact` compares with
anything, `present`/`isnull` only test truthiness, and the remaining lookups
need a string value. -/

def isVstr : Val → Bool | .vstr _ => true | _ => false
def isVlist : Val → Bool | .vlist _ => true | _ => false

/-- Value shapes on which the DN branch cannot raise. -/
def dnValOk (l : String) (v : Val) : Bool :=
  match dnLookupKind l with
  | .kin => isVstr v || isVlist v
  | .kunsupported => false
  | _ => isVstr v

/-- Value shapes on which the element-wise branch cannot raise. -/
def elemValOk (l : String) (v : Val) : Bool :=
  match elemLookupKind l with
  | .ein => isVstr v || isVlist v
  | .eexact => true
  | .eunsupported => false
  | _ => isVstr v

def exprChecked (f : String) (l : String) (v : Val) : Bool :=
  if lowerStr f == "dn" then dnValOk l v
  else if l == "present" || l == "isnull" then true
  else elemValOk l v

mutual
def checked : Node → Bool
  | .expr f lt v => exprChecked f (lookupOf lt) v
  | .and cs => checkedList cs
  | .or cs => checkedList cs
  | .not c => checked c

def checkedList : List Node → Bool
  | [] => true
  | c :: cs => checked c && checkedList cs
end

/-! ## Predicate-pushdown splitting (`Query._split_node`)

`splitNode` returns the three buckets `(ldap, python, dn)`: the
remote-pushable part, the local-only part, and at most one DN-exact
expression. -/

/-- `lookup in ['gt', 'gte', 'lt', 'lte']`. -/
def compLookup (l : String) : Bool :=
  l == "gt" || l == "gte" || l == "lt" || l == "lte"

/-- Recombination of a collected bucket:
`AndNode(*xs)` when two or more nodes, the single node when one, `None` when
empty. -/
def pack : List Node → Option Node
  | [] => none
  | [x] => some x
  | xs => some (.and xs)

mutual
def splitNode : Node → Option Node × Option Node × Option Node
  | .expr f lt v =>
    let l := lookupOf lt
    if compLookup l then (none, some (.expr f lt v), none)
    else if lowerStr f != "dn" then (some (.expr f lt v), none, none)
    else if l == "exact" then (none, none, some (.expr f lt v))
    else (none, some (.expr f lt v), none)
  | .and cs =>
    let acc := splitList cs
    let pydn : List Node × Option Node :=
      if acc.2.2.length ≥ 2 then (acc.2.1 ++ acc.2.2, none)
      else (acc.2.1, acc.2.2.head?)
    (pack acc.1, pack pydn.1, pydn.2)
  | .or cs =>
    if splitAnyLocal cs then (none, some (.or cs), none)
    else (some (.or cs), none, none)
  | .not c =>
    let s := splitNode c
    if s.2.1.isSome || s.2.2.isSome then (none, some (.not c), none)
    else (some (.not c), none, none)

/-- The collection loop of the `AndNode` case: split every child and append
each non-`None` component to its bucket, in order. -/
def splitList : List Node → List Node × List Node × List Node
  | [] => ([], [], [])
  | n :: ns =>
    let s := splitNode n
    let rest := splitList ns
    (s.1.toList ++ rest.1, s.2.1.toList ++ rest.2.1, s.2.2.toList ++ rest.2.2)

/-- The check of the `OrNode` case: does any child's split put something in
the python or dn bucket? -/
def splitAnyLocal : List Node → Bool
  | [] => false
  | n :: ns =>
    let s := splitNode n
    s.2.1.isSome || s.2.2.isSome || splitAnyLocal ns
end

/-! ## Totalised Boolean semantics

On `checked` nodes `evalNode` never returns `none`; `evalT` is the resulting
total Boolean semantics (defaulting the unreachable error cases to `false`),
used to state and prove the pushdown equivalence. -/

mutual
def evalT : Node → Record → Bool
  | .expr f lt v, r => (evalExpr f (lookupOf lt) v r).getD false
  | .and cs, r => evalTAll cs r
  | .or cs, r => evalTAny cs r
  | .not c, r => !(evalT c r)

def evalTAll : List Node → Record → Bool
  | [], _ => true
  | c :: cs, r => evalT c r && evalTAll cs r

def evalTAny : List Node → Record → Bool
  | [], _ => false
  | c :: cs, r => evalT c r || evalTAny cs r
end

/-- Evaluation of an optional node (an absent bucket holds nothing back,
i.e. is `True`). -/
def optEvalT (o : Option Node) (r : Record) : Bool :=
  match o with
  | none => true
  | some m => evalT m r

/-- `localEval` lifted to an optional node: an absent part contributes the
neutral `True`. -/
def optLocalEval (o : Option Node) (r : Record) : Option Bool :=
  match o with
  | none => some true
  | some m => localEval m r

/-- Conjunction of two fallible Boolean results, first one first. -/
def optAnd (a b : Option Bool) : Option Bool :=
  match a with
  | none => none
  | some false => some false
  | some true => b

/-- The two-part conjunction named by the claim: remote-pushable part AND
local-only part, the DN bucket ignored. -/
def splitEvalTwo (n : Node) (r : Record) : Option Bool :=
  optAnd (optLocalEval (splitNode n).1 r) (optLocalEval (splitNode n).2.1 r)

/-- The three-part conjunction: remote-pushable part AND local-only part AND
DN-exact part. -/
def splitEvalThree (n : Node) (r : Record) : Option Bool :=
  optAnd (optLocalEval (splitNode n).1 r)
    (optAnd (optLocalEval (splitNode n).2.1 r) (optLocalEval (splitNode n).2.2 r))

/-! ## `Query.filter` — DN rebasing and the empty short circuit

`Query.filter` (`src/jasmin_ldap/query.py` lines 390-433) splits the new
filter, handles a DN-exact bucket by rebasing or short-circuiting, pushes the
ldap bucket into the remote filter with `&` (`Node.and_`), and wraps the
python bucket in a `FilteredQuery`. -/

/-- Search scopes of `Connection` (`ldap3.SUBTREE` / `ldap3.LEVEL` /
`ldap3.BASE`). -/
inductive Scope where
  | subtree | singleLevel | entity
  deriving DecidableEq, Repr

/-- The remote-search parameters held by a `Query` (the connection/pool
object plays no part in `filter` and is not modelled). -/
structure QuerySpec where
  base_dn : String
  filter : Node
  scope : Scope
  deriving Repr

/-- What `Query.filter` returns.  `emptyInstanceAttr` models the value of the
source expression `EmptyQuery.instance`: `instance` is declared without
`@classmethod` and is returned without being called, so the caller receives
the plain function object itself, not an `EmptyQuery` — iterating it raises
`TypeError` instead of yielding zero records. -/
inductive FilterResult where
  | emptyInstanceAttr
  | remote (q : QuerySpec)
  | filtered (q : QuerySpec) (python : Node)
  deriving Repr

/-- `dn.value` followed by `.lower()`-compatible use: the DN bucket always
holds an `Expression`; its value must be a string or `.lower()` raises. -/
def dnValueOf : Node → Option String
  | .expr _ _ (.vstr s) => some s
  | _ => none

/-- `Query.filter(...)` for an already-built filter node `n` applied to the
query `q`.  `none` models a raised exception (`AttributeError` from calling
`.lower()` on a non-string DN value). -/
def queryFilter (q : QuerySpec) (n : Node) : Option FilterResult :=
  let s := splitNode n
  let afterDn : Option (Option QuerySpec) :=
    match s.2.2 with
    | none => some (some q)
    | some dnode =>
      match dnValueOf dnode with
      | none => none
      | some dv =>
        if q.scope = .entity then
          if lowerStr dv ≠ lowerStr q.base_dn then some none else some (some q)
        else
          if pyEndsWith (lowerStr dv) (lowerStr q.base_dn) then
            some (some { q with base_dn := dv, scope := .entity })
          else some none
  match afterDn with
  | none => none
  | some none => some .emptyInstanceAttr
  | some (some q1) =>
    let q2 : QuerySpec :=
      match s.1 with
      | some lnode => { q1 with filter := q1.filter.and_ lnode }
      | none => q1
    some (match s.2.1 with
      | some pnode => .filtered q2 pnode
      | none => .remote q2)

/-- The catch-all default filter `F(objectClass__present = True)` installed
by `Query.__init__` when none is given. -/
def catchAllFilter : Node :=
  .expr "objectClass" (some "present") (.vbool true)

/-! ## Result caching (`QueryBase._cached`)

`QueryBase.__iter__` returns `iter(self._cached)`; `_cached` runs the remote
query once and stores the list on the instance, so later iterations (and
`len`) reuse the snapshot.  The per-instance mutable state is modelled
explicitly. -/

structure CacheState (α : Type) where
  cache : Option (List α)
  fetches : Nat
  deriving Repr

/-- A freshly constructed query instance: no cache, no remote calls yet. -/
def freshInstance {α : Type} : CacheState α :=
  { cache := none, fetches := 0 }

/-- One call of `iter(query)` on an instance whose `_run_query` would produce
`run`: returns the (cached) results and the updated instance state;
`fetches` counts executions of `_run_query`, i.e. remote searches. -/
def iterOnce {α : Type} (run : List α) (s : CacheState α) : List α × CacheState α :=
  match s.cache with
  | some c => (c, s)
  | none => (run, { cache := some run, fetches := s.fetches + 1 })

/-! ## The connection pool (`src/jasmin_ldap/core.py`)

`ConnectionPool` keeps idle connections in a `queue.Queue`.  Python queue
semantics: `maxsize <= 0` means *unbounded*, and `put_nowait` raises `Full`
only when `maxsize > 0` and the queue already holds `maxsize` items. -/

structure PyQueue (α : Type) where
  maxsize : Int
  items : List α
  deriving DecidableEq, Repr

/-- `queue.Queue.put_nowait`: `none` models a raised `queue.Full`. -/
def putNowait {α : Type} (q : PyQueue α) (x : α) : Option (PyQueue α) :=
  if 0 < q.maxsize ∧ q.maxsize ≤ q.items.length then none
  else some { q with items := q.items ++ [x] }

inductive ReleaseOutcome where
  | pooled | closedConn
  deriving DecidableEq, Repr

/-- `ConnectionPool.release`: try `put_nowait`; on `queue.Full` close the
connection instead. -/
def poolRelease {α : Type} (q : PyQueue α) (c : α) : PyQueue α × ReleaseOutcome :=
  match putNowait q c with
  | some q' => (q', .pooled)
  | none => (q, .closedConn)

/-- `ConnectionPool.close_all`: swap the idle queue for `queue.Queue(0)` and
close every previously idle connection (returned as the second component). -/
def poolCloseAll {α : Type} (q : PyQueue α) : PyQueue α × List α :=
  ({ maxsize := 0, items := [] }, q.items)

/-- The default idle queue `queue.Queue(5)`. -/
def defaultQueue (α : Type) : PyQueue α :=
  { maxsize := 5, items := [] }

/-! ## Exception taxonomy (`src/jasmin_ldap/exceptions.py`) and the
scoped-acquisition helper (`ConnectionPool.connection`) -/

/-- The concrete exception classes an operation can raise, plus an arbitrary
non-LDAP exception. -/
inductive ExcClass where
  | ldapError
  | connError          -- ConnectionError(LDAPError)
  | noServerAvailable  -- NoServerAvailableError(ConnectionError)
  | operationalError   -- OperationalError(LDAPError)
  | operationNotAllowed
  | authenticationError
  | noSuchObject
  | objectAlreadyExists
  | permissionDenied
  | schemaViolation
  | otherException     -- any exception outside the LDAPError hierarchy
  deriving DecidableEq, Repr

/-- `isinstance(e, OperationalError)` per the class hierarchy. -/
def isOperationalError : ExcClass → Bool
  | .operationalError | .operationNotAllowed | .authenticationError
  | .noSuchObject | .objectAlreadyExists | .permissionDenied
  | .schemaViolation => true
  | _ => false

/-- `isinstance(e, LDAPError)` per the class hierarchy: everything except a
foreign exception. -/
def isLDAPError : ExcClass → Bool
  | .otherException => false
  | _ => true

/-- Outcome of the caller-supplied operation run inside
`with pool.connection() as conn`. -/
inductive Outcome where
  | success
  | raised (e : ExcClass)
  deriving DecidableEq, Repr

inductive Disposal where
  | released | closedConn
  deriving DecidableEq, Repr

/-- The `try/except` dispatch of `ConnectionPool.connection`: clauses are
tried in source order (`OperationalError`, then `LDAPError`, then
`Exception`), every error clause re-raises.  Returns what happens to the
connection and whether the exception propagates. -/
def connectionDispose : Outcome → Disposal × Bool
  | .success => (.released, false)
  | .raised e =>
    if isOperationalError e then (.released, true)
    else if isLDAPError e then (.closedConn, true)
    else (.released, true)

/-! ## `ConnectionPool.acquire` over a server set

Modelled from the spec: the fallback search over a configured server set
(primary first, then replicas in randomized order in read-only mode; an
authentication failure is fatal with no fallback; any other connection-level
failure moves on to the next candidate; exhaustion raises
`NoServerAvailableError`) is not present in `src/` —
`src/jasmin_ldap/core.py` holds a single `Server` — but
`NoServerAvailableError` and the read-only-mode error class
`OperationNotAllowedError` are declared in `src/jasmin_ldap/exceptions.py`
for it.  The idle-queue fast path is `ConnectionPool.acquire` as in the
source. -/

/-- Result of `Server.authenticate` for one candidate server. -/
inductive AuthResult (κ : Type) where
  | ok (c : κ)
  | authFail   -- AuthenticationError: fatal, no fallback
  | connFail   -- any other connection-level failure: try the next server
  deriving DecidableEq, Repr

inductive AcquireResult (κ : Type) where
  | conn (c : κ)
  | authError          -- AuthenticationError propagates
  | noServerAvailable  -- NoServerAvailableError after exhausting candidates
  deriving DecidableEq, Repr

/-- Try each candidate server in order. -/
def tryCandidates {σ κ : Type} (behav : σ → AuthResult κ) : List σ → AcquireResult κ
  | [] => .noServerAvailable
  | s :: rest =>
    match behav s with
    | .ok c => .conn c
    | .authFail => .authError
    | .connFail => tryCandidates behav rest

/-- `acquire()`: an idle pooled connection if one exists, otherwise
authenticate against the candidate list. -/
def poolAcquire {σ κ : Type} (idle : List κ) (candidates : List σ)
    (behav : σ → AuthResult κ) : AcquireResult κ :=
  match idle with
  | c :: _ => .conn c
  | [] => tryCandidates behav candidates

/-! ## Ordering (`OrderedQuery._compile_order`)

Records are sorted by a comparison function built from the orderings; each
attribute holds a list of values (numbers or strings after `_convert`), and
lists are compared with Python's lexicographic list comparison. -/

/-- A converted LDAP attribute value: `int` or `str`
(`core._convert`; floats are not needed by the checked properties). -/
inductive OVal where
  | num (n : Int)
  | str (s : String)
  deriving DecidableEq, Repr

/-- Python `==` across these types: `int == str` is `False`, never an
error. -/
def pyEqO : OVal → OVal → Bool
  | .num a, .num b => a == b
  | .str a, .str b => a == b
  | _, _ => false

/-- Python `<` on scalars: comparing `int` with `str` raises `TypeError`
(`none`). -/
def pyLtO : OVal → OVal → Option Bool
  | .num a, .num b => some (a < b)
  | .str a, .str b => some (pyStrLt a.data b.data)
  | _, _ => none

/-- Python list comparison `xs < ys`: find the first index where elements
differ under `==`, compare there with `<`; a strict prefix is smaller. -/
def pyListLt : List OVal → List OVal → Option Bool
  | [], [] => some false
  | [], _ :: _ => some true
  | _ :: _, [] => some false
  | a :: as, b :: bs =>
    if pyEqO a b then pyListLt as bs else pyLtO a b

/-- A record as seen by `OrderedQuery`: attribute name to value list. -/
structure ORec where
  attrs : List (String × List OVal)
  deriving DecidableEq, Repr

/-- `res.get(attr, [])`. -/
def ORec.get (r : ORec) (attr : String) : List OVal :=
  getO r.attrs attr
where getO : List (String × List OVal) → String → List OVal
  | [], _ => []
  | (k, vs) :: rest, f => if k == f then vs else getO rest f

/-- Parsing one ordering: a leading `-` asks for descending order. -/
def parseOrdering (o : String) : String × Bool :=
  match o.data with
  | '-' :: rest => (String.mk rest, true)
  | _ => (o, false)

/-- The comparison function built by `_compile_order`: `-1`, `0` or `1`;
`none` models a `TypeError` raised while comparing. -/
def compareRecs (to_apply : List (String × Bool)) (r1 r2 : ORec) : Option Int :=
  match to_apply with
  | [] => some 0
  | (attr, descending) :: rest =>
    let x := if descending then r2.get attr else r1.get attr
    let y := if descending then r1.get attr else r2.get attr
    match pyListLt x y with
    | none => none
    | some true => some (-1)
    | some false =>
      match pyListLt y x with
      | none => none
      | some true => some 1
      | some false => compareRecs rest r1 r2

/-- Stable insertion with respect to a comparison function: the new element
goes before an existing one only when it compares strictly smaller, i.e.
after every element it ties with — the placement a stable sort gives a
later-arriving element. -/
def insertCmp {α : Type} (cmp : α → α → Option Int) (x : α) : List α → Option (List α)
  | [] => some [x]
  | y :: ys =>
    match cmp x y with
    | none => none
    | some c =>
      if c < 0 then some (x :: y :: ys)
      else (insertCmp cmp x ys).map (y :: ·)

/-- `sorted(records, key = cmp_to_key(compare))`: a stable sort by the
comparison function. -/
def sortRecords {α : Type} (cmp : α → α → Option Int) (rs : List α) : Option (List α) :=
  rs.foldl (fun acc z => acc.bind (insertCmp cmp z)) (some [])

/-- `OrderedQuery._run_query` applied to materialised upstream results. -/
def orderByRun (orderings : List String) (rs : List ORec) : Option (List ORec) :=
  sortRecords (compareRecs (orderings.map parseOrdering)) rs

/-! ## Annotations (`AnnotatedQuery._run_query`)

`_run_query` executes `attrs[attr] = func(attrs)` for every annotation and
yields the mutated dictionary.  Attribute values in an annotated record are
therefore arbitrary Python objects: `PyObj.seq` is a proper value sequence,
`PyObj.scalarNum`/`scalarStr` are bare scalars as an annotation function may
return them. -/

inductive PyObj where
  | seq (vs : List String)
  | scalarNum (n : Int)
  | scalarStr (s : String)
  deriving DecidableEq, Repr

/-- Is the object a (non-text) sequence? -/
def PyObj.isSeq : PyObj → Bool
  | .seq _ => true
  | _ => false

/-- A record flowing through `AnnotatedQuery`. -/
def AnnRecord : Type := List (String × PyObj)

/-- Python `attrs[attr] = value` on an insertion-ordered dict. -/
def setAttr : AnnRecord → String → PyObj → AnnRecord
  | [], k, v => [(k, v)]
  | (k', v') :: rest, k, v =>
    if k' == k then (k, v) :: rest else (k', v') :: setAttr rest k v

/-- Python `attrs.get(name)`. -/
def getAnn : AnnRecord → String → Option PyObj
  | [], _ => none
  | (k', v') :: rest, k => if k' == k then some v' else getAnn rest k

/-- The annotation loop of `AnnotatedQuery._run_query` for one record:
`for attr, func in annotations: attrs[attr] = func(attrs)`. -/
def annotateRecord (annotations : List (String × (AnnRecord → PyObj)))
    (attrs : AnnRecord) : AnnRecord :=
  annotations.foldl (fun acc kv => setAttr acc kv.1 (kv.2 acc)) attrs

/-! ## Auxiliary definitions for the statements and proofs -/

/-- `checked` lifted to an optional node. -/
def optChecked : Option Node → Bool
  | none => true
  | some m => checked m

/-- Structural induction principle for `Node` exposing the children of a
combinator as list members. -/
def Node.induct {P : Node → Prop}
    (hexpr : ∀ f lt v, P (Node.expr f lt v))
    (hand : ∀ cs, (∀ c ∈ cs, P c) → P (Node.and cs))
    (hor : ∀ cs, (∀ c ∈ cs, P c) → P (Node.or cs))
    (hnot : ∀ c, P c → P (Node.not c)) : ∀ n, P n
  | .expr f lt v => hexpr f lt v
  | .and cs => hand cs (fun c hc => Node.induct hexpr hand hor hnot c)
  | .or cs => hor cs (fun c hc => Node.induct hexpr hand hor hnot c)
  | .not c => hnot c (Node.induct hexpr hand hor hnot c)
decreasing_by
  · have h1 := List.sizeOf_lt_of_mem hc
    simp only [Node.and.sizeOf_spec]
    omega
  · have h1 := List.sizeOf_lt_of_mem hc
    simp only [Node.or.sizeOf_spec]
    omega
  · simp only [Node.not.sizeOf_spec]
    omega

/-! # Lemmas -/

theorem optAnd_some_some (a b : Bool) : optAnd (some a) (some b) = some (a && b) := by
  cases a <;> rfl

theorem checkedList_append (xs ys : List Node) :
    checkedList (xs ++ ys) = (checkedList xs && checkedList ys) := by
  induction xs with
  | nil => simp [checkedList]
  | cons c cs ih => simp [checkedList, ih, Bool.and_assoc]

theorem checkedList_supportedList (cs : List Node)
    (ih : ∀ c ∈ cs, checked c = true → supported c = true)
    (h : checkedList cs = true) : supportedList cs = true := by
  induction cs with
  | nil => rfl
  | cons c cs ihl =>
    simp only [checkedList, Bool.and_eq_true] at h
    simp only [supportedList, Bool.and_eq_true]
    exact ⟨ih c (List.mem_cons_self c cs) h.1,
           ihl (fun x hx => ih x (List.mem_cons_of_mem c hx)) h.2⟩

theorem checked_supported : ∀ n, checked n = true → supported n = true := by
  intro n
  induction n using Node.induct with
  | hexpr f lt v =>
    intro h
    simp only [checked, exprChecked] at h
    simp only [supported]
    by_cases hdn : (lowerStr f == "dn") = true
    · simp only [hdn, if_true] at h ⊢
      cases hk : dnLookupKind (lookupOf lt) <;> simp_all [dnValOk]
    · simp only [hdn, if_false, Bool.false_eq_true] at h ⊢
      by_cases hp : (lookupOf lt == "present" || lookupOf lt == "isnull") = true
      · simp [hp]
      · simp only [hp, if_false, Bool.false_eq_true] at h ⊢
        cases hk : elemLookupKind (lookupOf lt) <;> simp_all [elemValOk]
  | hand cs ih =>
    intro h
    simp only [checked] at h
    simp only [supported]
    exact checkedList_supportedList cs ih h
  | hor cs ih =>
    intro h
    simp only [checked] at h
    simp only [supported]
    exact checkedList_supportedList cs ih h
  | hnot c ih =>
    intro h
    simp only [checked] at h
    simp only [supported]
    exact ih h

theorem dnFunc_total (l : String) (v : Val) (dn : String) (h : dnValOk l v = true) :
    (dnFunc l v dn).isSome = true := by
  cases hk : dnLookupKind l <;> cases v <;>
    simp_all [dnFunc, dnValOk, isVstr, isVlist]

theorem elemFunc_total (l : String) (v : Val) (h : elemValOk l v = true) (el : String) :
    (elemFunc l v el).isSome = true := by
  cases hk : elemLookupKind l <;> cases v <;>
    simp_all [elemFunc, elemValOk, isVstr, isVlist]

theorem anyElem_total (g : String → Option Bool) (hg : ∀ el, (g el).isSome = true) :
    ∀ xs, (anyElem g xs).isSome = true := by
  intro xs
  induction xs with
  | nil => rfl
  | cons x xs ih =>
    simp only [anyElem]
    cases hx : g x with
    | none => exact absurd (hg x) (by simp [hx])
    | some b => cases b <;> simp_all

theorem evalExpr_total (f l : String) (v : Val) (r : Record)
    (h : exprChecked f l v = true) : (evalExpr f l v r).isSome = true := by
  simp only [exprChecked] at h
  simp only [evalExpr]
  by_cases hdn : (lowerStr f == "dn") = true
  · simp only [hdn, if_true] at h ⊢
    exact dnFunc_total _ _ _ h
  · simp only [hdn, if_false, Bool.false_eq_true] at h ⊢
    by_cases h1 : (l == "present") = true
    · simp [h1]
    · simp only [h1, if_false, Bool.false_eq_true] at h ⊢
      by_cases h2 : (l == "isnull") = true
      · simp [h2]
      · simp only [h2, if_false, Bool.false_eq_true, Bool.false_or] at h ⊢
        exact anyElem_total _ (elemFunc_total l v h) _

theorem evalAll_total (cs : List Node) (r : Record)
    (ih : ∀ c ∈ cs, checked c = true → evalNode c r = some (evalT c r))
    (h : checkedList cs = true) : evalAll cs r = some (evalTAll cs r) := by
  induction cs with
  | nil => rfl
  | cons c cs ihl =>
    simp only [checkedList, Bool.and_eq_true] at h
    have hc := ih c (List.mem_cons_self c cs) h.1
    simp only [evalAll, evalTAll, hc]
    cases evalT c r
    · simp
    · simpa using ihl (fun x hx => ih x (List.mem_cons_of_mem c hx)) h.2

theorem evalAny_total (cs : List Node) (r : Record)
    (ih : ∀ c ∈ cs, checked c = true → evalNode c r = some (evalT c r))
    (h : checkedList cs = true) : evalAny cs r = some (evalTAny cs r) := by
  induction cs with
  | nil => rfl
  | cons c cs ihl =>
    simp only [checkedList, Bool.and_eq_true] at h
    have hc := ih c (List.mem_cons_self c cs) h.1
    simp only [evalAny, evalTAny, hc]
    cases evalT c r
    · simpa using ihl (fun x hx => ih x (List.mem_cons_of_mem c hx)) h.2
    · simp

theorem evalNode_total : ∀ n, checked n = true → ∀ r, evalNode n r = some (evalT n r) := by
  intro n
  induction n using Node.induct with
  | hexpr f lt v =>
    intro h r
    simp only [checked] at h
    have ht := evalExpr_total f (lookupOf lt) v r h
    simp only [evalNode, evalT]
    cases he : evalExpr f (lookupOf lt) v r
    · rw [he] at ht; exact absurd ht (by simp)
    · simp [he]
  | hand cs ih =>
    intro h r
    simp only [checked] at h
    simp only [evalNode, evalT]
    exact evalAll_total cs r (fun c hc hcc => ih c hc hcc r) h
  | hor cs ih =>
    intro h r
    simp only [checked] at h
    simp only [evalNode, evalT]
    exact evalAny_total cs r (fun c hc hcc => ih c hc hcc r) h
  | hnot c ih =>
    intro h r
    simp only [checked] at h
    simp only [evalNode, evalT, ih h r]

theorem optChecked_toList (o : Option Node) : checkedList o.toList = optChecked o := by
  cases o <;> simp [checkedList, optChecked]

theorem pack_checked (L : List Node) (h : checkedList L = true) :
    optChecked (pack L) = true := by
  match L with
  | [] => rfl
  | [x] => simp_all [pack, optChecked, checkedList]
  | x :: y :: rest => simp_all [pack, optChecked, checked]

theorem splitList_checked (cs : List Node)
    (ih : ∀ c ∈ cs, checked c = true →
      optChecked (splitNode c).1 = true ∧ optChecked (splitNode c).2.1 = true ∧
        optChecked (splitNode c).2.2 = true)
    (h : checkedList cs = true) :
    checkedList (splitList cs).1 = true ∧ checkedList (splitList cs).2.1 = true ∧
      checkedList (splitList cs).2.2 = true := by
  induction cs with
  | nil => exact ⟨rfl, rfl, rfl⟩
  | cons c cs ihl =>
    simp only [checkedList, Bool.and_eq_true] at h
    obtain ⟨h1, h2, h3⟩ := ih c (List.mem_cons_self c cs) h.1
    obtain ⟨g1, g2, g3⟩ := ihl (fun x hx => ih x (List.mem_cons_of_mem c hx)) h.2
    simp only [splitList]
    refine ⟨?_, ?_, ?_⟩ <;>
      simp [checkedList_append, optChecked_toList, h1, h2, h3, g1, g2, g3]

theorem split_checked : ∀ n, checked n = true →
    optChecked (splitNode n).1 = true ∧ optChecked (splitNode n).2.1 = true ∧
      optChecked (splitNode n).2.2 = true := by
  intro n
  induction n using Node.induct with
  | hexpr f lt v =>
    intro h
    simp only [splitNode]
    split_ifs <;> exact ⟨by simp [optChecked, h], by simp [optChecked, h],
      by simp [optChecked, h]⟩
  | hand cs ih =>
    intro h
    simp only [checked] at h
    obtain ⟨hA, hB, hC⟩ := splitList_checked cs ih h
    simp only [splitNode]
    split_ifs with hlen
    · exact ⟨pack_checked _ hA, pack_checked _ (by simp [checkedList_append, hB, hC]), rfl⟩
    · refine ⟨pack_checked _ hA, pack_checked _ hB, ?_⟩
      match hm : (splitList cs).2.2 with
      | [] => rfl
      | [c] =>
        rw [hm] at hC
        simp only [checkedList, Bool.and_eq_true] at hC
        simpa [optChecked] using hC.1
      | c₁ :: c₂ :: rest =>
        rw [hm] at hlen
        exact absurd (by simp) hlen
  | hor cs ih =>
    intro h
    simp only [splitNode]
    split_ifs <;> exact ⟨by simp [optChecked, h], by simp [optChecked, h],
      by simp [optChecked, h]⟩
  | hnot c ih =>
    intro h
    simp only [splitNode]
    split_ifs <;> exact ⟨by simp [optChecked, h], by simp [optChecked, h],
      by simp [optChecked, h]⟩

theorem evalTAll_append (xs ys : List Node) (r : Record) :
    evalTAll (xs ++ ys) r = (evalTAll xs r && evalTAll ys r) := by
  induction xs with
  | nil => simp [evalTAll]
  | cons c cs ih => simp [evalTAll, ih, Bool.and_assoc]

theorem evalTAll_toList (o : Option Node) (r : Record) :
    evalTAll o.toList r = optEvalT o r := by
  cases o <;> simp [evalTAll, optEvalT]

theorem pack_evalT (L : List Node) (r : Record) :
    optEvalT (pack L) r = evalTAll L r := by
  match L with
  | [] => rfl
  | [x] => simp [pack, optEvalT, evalTAll]
  | x :: y :: rest => simp [pack, optEvalT, evalT]

theorem splitList_evalT (cs : List Node) (r : Record)
    (ih : ∀ c ∈ cs,
      (optEvalT (splitNode c).1 r && (optEvalT (splitNode c).2.1 r &&
        optEvalT (splitNode c).2.2 r)) = evalT c r) :
    (evalTAll (splitList cs).1 r && (evalTAll (splitList cs).2.1 r &&
      evalTAll (splitList cs).2.2 r)) = evalTAll cs r := by
  induction cs with
  | nil => rfl
  | cons c cs ihl =>
    have hc := ih c (List.mem_cons_self c cs)
    have hrest := ihl (fun x hx => ih x (List.mem_cons_of_mem c hx))
    simp only [splitList, evalTAll_append, evalTAll_toList]
    simp only [evalTAll]
    rw [← hc, ← hrest]
    ac_rfl

theorem split_evalT : ∀ n r,
    (optEvalT (splitNode n).1 r && (optEvalT (splitNode n).2.1 r &&
      optEvalT (splitNode n).2.2 r)) = evalT n r := by
  intro n
  induction n using Node.induct with
  | hexpr f lt v =>
    intro r
    simp only [splitNode]
    split_ifs <;> simp [optEvalT]
  | hand cs ih =>
    intro r
    have hlist := splitList_evalT cs r (fun c hc => ih c hc r)
    simp only [splitNode]
    split_ifs with hlen
    · rw [pack_evalT, pack_evalT, evalTAll_append]
      simp only [optEvalT, Bool.and_true, evalT]
      rw [← hlist]
    · rw [pack_evalT, pack_evalT]
      have hhead : optEvalT (splitList cs).2.2.head? r = evalTAll (splitList cs).2.2 r := by
        match hm : (splitList cs).2.2 with
        | [] => rfl
        | [c] => simp [optEvalT, evalTAll]
        | c₁ :: c₂ :: rest =>
          rw [hm] at hlen
          exact absurd (by simp) hlen
      rw [hhead]
      simp only [evalT]
      exact hlist
  | hor cs ih =>
    intro r
    simp only [splitNode]
    split_ifs <;> simp [optEvalT]
  | hnot c ih =>
    intro r
    simp only [splitNode]
    split_ifs <;> simp [optEvalT]

theorem optLocalEval_total (o : Option Node) (r : Record) (h : optChecked o = true) :
    optLocalEval o r = some (optEvalT o r) := by
  cases o with
  | none => rfl
  | some m =>
    simp only [optChecked] at h
    simp only [optLocalEval, optEvalT, localEval, checked_supported m h, if_true,
      evalNode_total m h r]

/-! # Claim C1 — pushdown preserves filter semantics -/

/-- **C1, counterexample to the claim as stated.**  The claim equates direct
evaluation of a node with the conjunction of only the remote-pushable and
local-only parts of `Query._split_node`.  For the single DN-exact expression
`Expression('dn', 'exact', 'cn=alice,dc=example')` the split puts the whole
node into the third (DN-exact) bucket, so both named parts are absent and
their conjunction is `True`, yet direct evaluation against a record whose DN
is `cn=bob,dc=example` is `False`. -/
theorem C1_two_part_counterexample :
    splitEvalTwo (Node.expr "dn" (some "exact") (Val.vstr "cn=alice,dc=example"))
        ⟨"cn=bob,dc=example", []⟩ = some true ∧
      localEval (Node.expr "dn" (some "exact") (Val.vstr "cn=alice,dc=example"))
        ⟨"cn=bob,dc=example", []⟩ = some false :=
  ⟨rfl, rfl⟩

/-- **C1, amended.**  For every filter node `n` whose lookups the local
compiler supports and whose values fit their lookups (`checked n`), and every
attribute record `r`, the conjunction of all **three** parts produced by
`Query._split_node` — remote-pushable, local-only and DN-exact, each
evaluated by the record-level filter semantics — equals evaluating `n`
directly against `r`. -/
theorem C1_pushdown_preserves (n : Node) (r : Record) (h : checked n = true) :
    splitEvalThree n r = localEval n r := by
  obtain ⟨h1, h2, h3⟩ := split_checked n h
  rw [splitEvalThree, optLocalEval_total _ _ h1, optLocalEval_total _ _ h2,
    optLocalEval_total _ _ h3, optAnd_some_some, optAnd_some_some,
    localEval, if_pos (checked_supported n h), evalNode_total n h r,
    split_evalT n r]

/-- Witness for `C1_pushdown_preserves` at a concrete conjunction of a
substring lookup, a defaulted-exact lookup and a DN-exact lookup. -/
theorem C1_pushdown_preserves_witness :
    checked (Node.and [Node.expr "mail" (some "icontains") (Val.vstr "BOB"),
        Node.expr "uid" none (Val.vstr "jbloggs"),
        Node.expr "dn" (some "exact") (Val.vstr "cn=x,dc=y")]) = true ∧
      splitEvalThree (Node.and [Node.expr "mail" (some "icontains") (Val.vstr "BOB"),
          Node.expr "uid" none (Val.vstr "jbloggs"),
          Node.expr "dn" (some "exact") (Val.vstr "cn=x,dc=y")])
        ⟨"cn=x,dc=y", [("mail", ["a.bob@x"]), ("uid", ["jbloggs"])]⟩ =
      localEval (Node.and [Node.expr "mail" (some "icontains") (Val.vstr "BOB"),
          Node.expr "uid" none (Val.vstr "jbloggs"),
          Node.expr "dn" (some "exact") (Val.vstr "cn=x,dc=y")])
        ⟨"cn=x,dc=y", [("mail", ["a.bob@x"]), ("uid", ["jbloggs"])]⟩ :=
  ⟨rfl, C1_pushdown_preserves _ _ rfl⟩

/-! # Claim C2 — DN-exact rebasing and the empty short circuit -/

/-- **C2.**  `Query.filter` with a conjunction holding exactly one DN-exact
predicate: a DN under the current root rebases the query to that DN with
single-entry scope (the non-DN predicate being pushed into the remote filter
with `&`); a DN outside the root, or one differing from an already-singleton
root, takes the short-circuit path — but what that path returns is the raw
class attribute `EmptyQuery.instance` (modelled by
`FilterResult.emptyInstanceAttr`): `instance` is a plain function declared
without `@classmethod` and returned uncalled, so the caller gets a function
object instead of a zero-record query, and iterating it raises `TypeError`. -/
theorem C2_dn_exact_filter :
    queryFilter ⟨"dc=b", catchAllFilter, .singleLevel⟩
        (Node.and [Node.expr "dn" (some "exact") (Val.vstr "cn=a,dc=b"),
          Node.expr "mail" (some "exact") (Val.vstr "x")])
      = some (.remote ⟨"cn=a,dc=b",
          Node.and [catchAllFilter, Node.expr "mail" (some "exact") (Val.vstr "x")],
          .entity⟩) ∧
      queryFilter ⟨"dc=b", catchAllFilter, .singleLevel⟩
        (Node.and [Node.expr "dn" (some "exact") (Val.vstr "cn=a,dc=other"),
          Node.expr "mail" (some "exact") (Val.vstr "x")])
      = some .emptyInstanceAttr ∧
      queryFilter ⟨"cn=q,dc=b", catchAllFilter, .entity⟩
        (Node.and [Node.expr "dn" (some "exact") (Val.vstr "cn=r,dc=b"),
          Node.expr "mail" (some "exact") (Val.vstr "x")])
      = some .emptyInstanceAttr :=
  ⟨rfl, rfl, rfl⟩

/-! # Claim C3 — one remote search per instance -/

/-- **C3.**  Iterating a query instance twice (or iterating and then taking
`len`, which also goes through `_cached`) runs `_run_query` exactly once:
the first iteration stores the snapshot and increments the fetch count to 1,
the second returns the same snapshot with the count unchanged; a second,
distinct instance built by the same chain starts with its own empty cache
and performs its own single fetch. -/
theorem C3_iterate_caches {α : Type} (run run' : List α) :
    (iterOnce run (freshInstance : CacheState α)).1 = run ∧
      (iterOnce run (freshInstance : CacheState α)).2.fetches = 1 ∧
      (iterOnce run (iterOnce run (freshInstance : CacheState α)).2).1 = run ∧
      (iterOnce run (iterOnce run (freshInstance : CacheState α)).2).2.fetches = 1 ∧
      (iterOnce run' (freshInstance : CacheState α)).1 = run' ∧
      (iterOnce run' (freshInstance : CacheState α)).2.fetches = 1 :=
  ⟨rfl, rfl, rfl, rfl, rfl, rfl⟩

/-! # Claim C4 — pool release at capacity and after close_all -/

/-- **C4.**  Releasing into a full bounded queue closes the connection (first
half of the claim, as the code's `except queue.Full` branch states) — but
after `close_all`, which installs `queue.Queue(0)`, a released connection is
**pooled**, not closed: in Python a queue with `maxsize <= 0` is unbounded,
so `put_nowait` never raises `Full`, contradicting the code's own comment
("any connections returned to the pool after this method is called are
automatically closed"). -/
theorem C4_release_capacity_and_close_all :
    (poolRelease ⟨5, ["c1", "c2", "c3", "c4", "c5"]⟩ "c6").2 = .closedConn ∧
      (poolRelease ⟨5, ["c1", "c2", "c3", "c4", "c5"]⟩ "c6").1.items
        = ["c1", "c2", "c3", "c4", "c5"] ∧
      (poolRelease (poolCloseAll (defaultQueue String)).1 "c7").2 = .pooled ∧
      (poolRelease (poolCloseAll (defaultQueue String)).1 "c7").1.items = ["c7"] := by
  refine ⟨?_, ?_, rfl, rfl⟩ <;> simp [poolRelease, putNowait]

/-! # Claim C7 — flattening is an operator property, not a constructor one -/

/-- **C7, counterexample to the claim as stated.**  The `AndNode` constructor
does not flatten: `AndNode(AndNode(a, b), c)` has the two children
`AndNode(a, b)` and `c`, not the child multiset `{a, b, c}`; and the
`NotNode` constructor does not cancel: `NotNode(NotNode(a))` is a
double-negation node, not `a` itself. -/
theorem C7_constructor_counterexample :
    Multiset.ofList (Node.and [Node.and [Node.expr "a" none (Val.vstr ""),
        Node.expr "b" none (Val.vstr "")], Node.expr "c" none (Val.vstr "")]).children ≠
      Multiset.ofList [Node.expr "a" none (Val.vstr ""), Node.expr "b" none (Val.vstr ""),
        Node.expr "c" none (Val.vstr "")] ∧
      Node.not (Node.not (Node.expr "a" none (Val.vstr ""))) ≠
        Node.expr "a" none (Val.vstr "") := by
  constructor
  · intro h
    have hcard := congrArg Multiset.card h
    simp [Node.children] at hcard
  · intro h
    exact Node.noConfusion h

/-- **C7, amended.**  Flattening and double-negation elimination are
properties of the combinator methods (the `&` / `~` operators): combining
`AndNode(a, b)` with `c` through `and_` yields the child multiset
`{a, b, c}`, and applying `not_` to `NotNode(a)` yields `a`. -/
theorem C7_combinators_flatten (a b c : Node) :
    Multiset.ofList ((Node.and [a, b]).and_ c).children = Multiset.ofList [a, b, c] ∧
      (Node.not a).not_ = a :=
  ⟨rfl, rfl⟩

/-! # Claim C8 — scoped acquisition disposal by outcome kind -/

/-- **C8.**  The `try`/`except` chain of `ConnectionPool.connection`
classifies every outcome: normal completion releases without re-raising;
an `OperationalError` (the "acceptable" kind, e.g. `NoSuchObjectError`)
releases and re-raises; any other `LDAPError` closes the connection and
re-raises; any non-LDAP exception releases and re-raises. -/
theorem C8_connection_disposal :
    connectionDispose .success = (.released, false) ∧
      (∀ e, isOperationalError e = true →
        connectionDispose (.raised e) = (.released, true)) ∧
      (∀ e, isLDAPError e = true → isOperationalError e = false →
        connectionDispose (.raised e) = (.closedConn, true)) ∧
      (∀ e, isLDAPError e = false →
        connectionDispose (.raised e) = (.released, true)) := by
  refine ⟨rfl, ?_, ?_, ?_⟩ <;>
    intro e <;> cases e <;> simp [connectionDispose, isOperationalError, isLDAPError]

/-- Witness for `C8_connection_disposal`: an absent target object releases,
a connection-level error evicts, a foreign exception releases. -/
theorem C8_connection_disposal_witness :
    connectionDispose (.raised .noSuchObject) = (.released, true) ∧
      connectionDispose (.raised .connError) = (.closedConn, true) ∧
      connectionDispose (.raised .otherException) = (.released, true) :=
  ⟨C8_connection_disposal.2.1 .noSuchObject rfl,
    C8_connection_disposal.2.2.1 .connError rfl rfl,
    C8_connection_disposal.2.2.2 .otherException rfl⟩

/-! # Claim C9 — acquire over a server set -/

/-- **C9** (server-set fallback modelled from the spec; see the section
comment at `tryCandidates`).  `acquire` returns an idle pooled connection
when one exists; otherwise it walks the candidate list — the primary first,
then the replicas in whatever (randomized) order was chosen: an
authentication failure on a candidate is fatal with no fallback, a
connection-level failure moves to the next candidate, and if every candidate
fails with a connection-level failure the result is the
`NoServerAvailableError` outcome. -/
theorem C9_acquire_server_set {σ κ : Type} :
    (∀ (c : κ) (rest : List κ) (cands : List σ) (behav : σ → AuthResult κ),
        poolAcquire (c :: rest) cands behav = .conn c) ∧
      (∀ (primary : σ) (perm : List σ) (behav : σ → AuthResult κ),
        behav primary = .authFail →
        poolAcquire ([] : List κ) (primary :: perm) behav = .authError) ∧
      (∀ (cands : List σ) (behav : σ → AuthResult κ),
        (∀ s ∈ cands, behav s = .connFail) →
        poolAcquire ([] : List κ) cands behav = .noServerAvailable) ∧
      (∀ (s : σ) (rest : List σ) (behav : σ → AuthResult κ),
        behav s = .connFail →
        poolAcquire ([] : List κ) (s :: rest) behav = tryCandidates behav rest) := by
  refine ⟨fun c rest cands behav => rfl, ?_, ?_, ?_⟩
  · intro primary perm behav h
    simp [poolAcquire, tryCandidates, h]
  · intro cands behav h
    induction cands with
    | nil => rfl
    | cons s rest ih =>
      have hs := h s (List.mem_cons_self s rest)
      have hrest := ih (fun x hx => h x (List.mem_cons_of_mem s hx))
      simp only [poolAcquire] at hrest ⊢
      simp [tryCandidates, hs, hrest]
  · intro s rest behav h
    simp [poolAcquire, tryCandidates, h]

/-- Witness for `C9_acquire_server_set` over two concrete servers: the idle
fast path, the fatal authentication failure, total exhaustion, and fallback
from a failing primary to a working replica. -/
theorem C9_acquire_server_set_witness :
    poolAcquire [(7 : Nat)] ["primary"] (fun _ => (AuthResult.connFail : AuthResult Nat)) =
        .conn 7 ∧
      poolAcquire ([] : List Nat) ["primary", "r1"]
        (fun s => if s == "primary" then .authFail else .ok (1 : Nat)) = .authError ∧
      poolAcquire ([] : List Nat) ["primary", "r1"]
        (fun _ => (AuthResult.connFail : AuthResult Nat)) = .noServerAvailable ∧
      poolAcquire ([] : List Nat) ["primary", "r1"]
        (fun s => if s == "primary" then .connFail else .ok (1 : Nat)) = .conn 1 := by
  refine ⟨C9_acquire_server_set.1 7 [] _ _, C9_acquire_server_set.2.1 _ ["r1"] _ rfl,
    C9_acquire_server_set.2.2.1 _ _ ?_, ?_⟩
  · intro s hs
    fin_cases hs <;> rfl
  · rw [C9_acquire_server_set.2.2.2 "primary" ["r1"] _ rfl]
    rfl

/-! # Claim C5 — ordering -/

theorem insertCmp_all_zero {α : Type} (cmp : α → α → Option Int) (x : α) :
    ∀ acc, (∀ y ∈ acc, cmp x y = some 0) → insertCmp cmp x acc = some (acc ++ [x]) := by
  intro acc
  induction acc with
  | nil => intro _; rfl
  | cons y ys ih =>
    intro h
    have hy := h y (List.mem_cons_self y ys)
    simp only [insertCmp, hy]
    rw [if_neg (by omega)]
    rw [ih (fun z hz => h z (List.mem_cons_of_mem y hz))]
    rfl

theorem foldl_insert_all_zero {α : Type} (cmp : α → α → Option Int) :
    ∀ (l acc : List α), (∀ a ∈ l, ∀ b ∈ acc, cmp a b = some 0) →
      (∀ a ∈ l, ∀ b ∈ l, cmp a b = some 0) →
      List.foldl (fun acc z => acc.bind (insertCmp cmp z)) (some acc) l = some (acc ++ l) := by
  intro l
  induction l with
  | nil => intro acc _ _; simp
  | cons r rs ih =>
    intro acc hacc hl
    have h1 : (some acc).bind (insertCmp cmp r) = some (acc ++ [r]) := by
      simpa using insertCmp_all_zero cmp r acc (hacc r (List.mem_cons_self r rs))
    have h2 := ih (acc ++ [r])
      (fun a ha b hb => by
        rcases List.mem_append.mp hb with hb | hb
        · exact hacc a (List.mem_cons_of_mem r ha) b hb
        · have hb' := List.mem_singleton.mp hb
          rw [hb']
          exact hl a (List.mem_cons_of_mem r ha) r (List.mem_cons_self r rs))
      (fun a ha b hb =>
        hl a (List.mem_cons_of_mem r ha) b (List.mem_cons_of_mem r hb))
    simp only [List.foldl_cons, h1, h2, List.append_assoc, List.singleton_append]

theorem sortRecords_all_zero {α : Type} (cmp : α → α → Option Int) (rs : List α)
    (h : ∀ a ∈ rs, ∀ b ∈ rs, cmp a b = some 0) : sortRecords cmp rs = some rs := by
  simpa [sortRecords] using foldl_insert_all_zero cmp rs [] (by simp) h

/-- **C5, counterexample to the claim as stated.**  `order_by('-age', 'name')`
sorts by *descending* age first, so on the records
`[{age:[30],name:["b"]}, {age:[30],name:["a"]}, {age:[20],name:["z"]}]` the
code yields `age30/a, age30/b, age20/z` — not the claimed order
`age20/z, age30/a, age30/b`. -/
theorem C5_orderby_counterexample :
    orderByRun ["-age", "name"]
        [⟨[("age", [OVal.num 30]), ("name", [OVal.str "b"])]⟩,
         ⟨[("age", [OVal.num 30]), ("name", [OVal.str "a"])]⟩,
         ⟨[("age", [OVal.num 20]), ("name", [OVal.str "z"])]⟩]
      = some [⟨[("age", [OVal.num 30]), ("name", [OVal.str "a"])]⟩,
          ⟨[("age", [OVal.num 30]), ("name", [OVal.str "b"])]⟩,
          ⟨[("age", [OVal.num 20]), ("name", [OVal.str "z"])]⟩] ∧
      orderByRun ["-age", "name"]
        [⟨[("age", [OVal.num 30]), ("name", [OVal.str "b"])]⟩,
         ⟨[("age", [OVal.num 30]), ("name", [OVal.str "a"])]⟩,
         ⟨[("age", [OVal.num 20]), ("name", [OVal.str "z"])]⟩]
      ≠ some [⟨[("age", [OVal.num 20]), ("name", [OVal.str "z"])]⟩,
          ⟨[("age", [OVal.num 30]), ("name", [OVal.str "a"])]⟩,
          ⟨[("age", [OVal.num 30]), ("name", [OVal.str "b"])]⟩] := by
  refine ⟨by decide, by decide⟩

/-- **C5, amended.**  On the example records, `order_by('-age', 'name')`
yields `age30/a, age30/b, age20/z` (descending age first, name breaking the
tie); in an ascending sort a record whose key attribute is absent (empty
value sequence) sorts *before* any record with a non-empty value sequence —
the comparison function uses `[]` as the missing-attribute default and
Python's lexicographic list order makes the empty list smallest,
notwithstanding the code's comment that "None comes after everything else" —
and records that the comparison function ties retain their relative input
order (stable sort). -/
theorem C5_orderby_amended :
    orderByRun ["-age", "name"]
        [⟨[("age", [OVal.num 30]), ("name", [OVal.str "b"])]⟩,
         ⟨[("age", [OVal.num 30]), ("name", [OVal.str "a"])]⟩,
         ⟨[("age", [OVal.num 20]), ("name", [OVal.str "z"])]⟩]
      = some [⟨[("age", [OVal.num 30]), ("name", [OVal.str "a"])]⟩,
          ⟨[("age", [OVal.num 30]), ("name", [OVal.str "b"])]⟩,
          ⟨[("age", [OVal.num 20]), ("name", [OVal.str "z"])]⟩] ∧
      (∀ (attr : String) (r1 r2 : ORec), r1.get attr = [] → r2.get attr ≠ [] →
        compareRecs [(attr, false)] r1 r2 = some (-1)) ∧
      (∀ (cmp : ORec → ORec → Option Int) (rs : List ORec),
        (∀ a ∈ rs, ∀ b ∈ rs, cmp a b = some 0) → sortRecords cmp rs = some rs) := by
  refine ⟨by decide, ?_, fun cmp rs h => sortRecords_all_zero cmp rs h⟩
  intro attr r1 r2 h1 h2
  match hy : r2.get attr with
  | [] => exact absurd hy h2
  | v :: vs => simp [compareRecs, h1, hy, pyListLt]

/-- Witness for `C5_orderby_amended`: a record without the key sorts before a
record carrying `k = [1]`, and two records tying on `k` keep their input
order. -/
theorem C5_orderby_amended_witness :
    compareRecs [("k", false)] ⟨[]⟩ ⟨[("k", [OVal.num 1])]⟩ = some (-1) ∧
      sortRecords (compareRecs [("k", false)])
        [⟨[("k", [OVal.num 1]), ("id", [OVal.str "x"])]⟩,
         ⟨[("k", [OVal.num 1]), ("id", [OVal.str "y"])]⟩]
      = some [⟨[("k", [OVal.num 1]), ("id", [OVal.str "x"])]⟩,
          ⟨[("k", [OVal.num 1]), ("id", [OVal.str "y"])]⟩] :=
  ⟨C5_orderby_amended.2.1 "k" ⟨[]⟩ ⟨[("k", [OVal.num 1])]⟩ (by decide) (by decide),
    C5_orderby_amended.2.2 _ _ (by decide)⟩

/-! # Claim C6 — annotations are stored raw -/

theorem getAnn_setAttr (a : AnnRecord) (k : String) (v : PyObj) :
    getAnn (setAttr a k v) k = some v := by
  induction a with
  | nil => simp [setAttr, getAnn]
  | cons kv rest ih =>
    by_cases h : (kv.1 == k) = true
    · simp [setAttr, getAnn, h]
    · simp [setAttr, getAnn, h, ih]

/-- **C6, counterexample to the claim as stated.**  `AnnotatedQuery._run_query`
executes `attrs[attr] = func(attrs)` with no wrapping: an annotation function
returning the bare number `5` leaves the bare number in the record, so the
stored value is not a sequence and the AttributeRecord invariant is broken. -/
theorem C6_annotation_counterexample :
    annotateRecord [("n", fun _ => PyObj.scalarNum 5)] [] = [("n", PyObj.scalarNum 5)] ∧
      getAnn (annotateRecord [("n", fun _ => PyObj.scalarNum 5)] []) "n"
        = some (PyObj.scalarNum 5) ∧
      PyObj.isSeq (PyObj.scalarNum 5) = false :=
  ⟨rfl, rfl, rfl⟩

/-- **C6, amended.**  The value stored under an annotation name is the
annotation function's result exactly as returned — no singleton-sequence
wrapping occurs — so an emitted record keeps the every-value-is-a-sequence
invariant only when the annotation function itself returns a sequence. -/
theorem C6_annotation_stored_raw (name : String) (f : AnnRecord → PyObj)
    (attrs : AnnRecord) :
    getAnn (annotateRecord [(name, f)] attrs) name = some (f attrs) := by
  simp only [annotateRecord, List.foldl_cons, List.foldl_nil]
  exact getAnn_setAttr attrs name (f attrs)

/-! # Claim C10 — DN lookups in the local compiler -/

/-- **C10.**  In `FilteredQuery._compile_filter`, every supported lookup on
the `dn` field lower-cases both operands and treats the record's DN as one
string: the nominally case-sensitive `exact`/`contains`/`startswith`/
`endswith` evaluate identically to their `i`-prefixed variants and unfold to
case-insensitive whole-string comparisons; a lookup outside the DN chain
(e.g. `gt`, `present`, `isnull`) makes compilation fail; on non-DN fields the
case-sensitive and case-insensitive variants remain distinct (shown at a
concrete record). -/
theorem C10_dn_local_semantics :
    (∀ (f : String) (v : Val) (r : Record), lowerStr f = "dn" →
        evalExpr f "exact" v r = evalExpr f "iexact" v r ∧
        evalExpr f "contains" v r = evalExpr f "icontains" v r ∧
        evalExpr f "startswith" v r = evalExpr f "istartswith" v r ∧
        evalExpr f "endswith" v r = evalExpr f "iendswith" v r) ∧
      (∀ (f s : String) (r : Record), lowerStr f = "dn" →
        evalExpr f "exact" (.vstr s) r = some (lowerStr (dnGet r f) == lowerStr s) ∧
        evalExpr f "contains" (.vstr s) r
          = some (pyInStr (lowerStr s) (lowerStr (dnGet r f))) ∧
        evalExpr f "startswith" (.vstr s) r
          = some (pyStartsWith (lowerStr (dnGet r f)) (lowerStr s)) ∧
        evalExpr f "endswith" (.vstr s) r
          = some (pyEndsWith (lowerStr (dnGet r f)) (lowerStr s))) ∧
      (∀ (f : String) (lt : Option String) (v : Val) (r : Record), lowerStr f = "dn" →
        dnLookupKind (lookupOf lt) = .kunsupported →
        localEval (.expr f lt v) r = none) ∧
      (evalNode (.expr "mail" (some "exact") (.vstr "A")) ⟨"", [("mail", ["a"])]⟩
          = some false ∧
        evalNode (.expr "mail" (some "iexact") (.vstr "A")) ⟨"", [("mail", ["a"])]⟩
          = some true) := by
  refine ⟨?_, ?_, ?_, by decide, by decide⟩
  · intro f v r h
    refine ⟨?_, ?_, ?_, ?_⟩ <;> simp [evalExpr, h, dnFunc,
      show dnLookupKind "exact" = .kexact from rfl,
      show dnLookupKind "iexact" = .kexact from rfl,
      show dnLookupKind "contains" = .kcontains from rfl,
      show dnLookupKind "icontains" = .kcontains from rfl,
      show dnLookupKind "startswith" = .kstartswith from rfl,
      show dnLookupKind "istartswith" = .kstartswith from rfl,
      show dnLookupKind "endswith" = .kendswith from rfl,
      show dnLookupKind "iendswith" = .kendswith from rfl]
  · intro f s r h
    refine ⟨?_, ?_, ?_, ?_⟩ <;> simp [evalExpr, h, dnFunc,
      show dnLookupKind "exact" = .kexact from rfl,
      show dnLookupKind "contains" = .kcontains from rfl,
      show dnLookupKind "startswith" = .kstartswith from rfl,
      show dnLookupKind "endswith" = .kendswith from rfl]
  · intro f lt v r h hk
    simp [localEval, supported, h, hk]

/-- Witness for `C10_dn_local_semantics`: `exact` on `dn` coincides with
`iexact` and matches case-insensitively at a concrete record; `gt` and
`present` on `dn` fail compilation. -/
theorem C10_dn_local_semantics_witness :
    evalExpr "dn" "exact" (.vstr "CN=A,DC=B") ⟨"cn=a,dc=b", []⟩
        = evalExpr "dn" "iexact" (.vstr "CN=A,DC=B") ⟨"cn=a,dc=b", []⟩ ∧
      evalExpr "dn" "exact" (.vstr "CN=A,DC=B") ⟨"cn=a,dc=b", []⟩
        = some (lowerStr (dnGet ⟨"cn=a,dc=b", []⟩ "dn") == lowerStr "CN=A,DC=B") ∧
      localEval (.expr "dn" (some "gt") (.vstr "x")) ⟨"cn=a,dc=b", []⟩ = none ∧
      localEval (.expr "dn" (some "present") (.vbool true)) ⟨"cn=a,dc=b", []⟩ = none :=
  ⟨(C10_dn_local_semantics.1 "dn" (.vstr "CN=A,DC=B") ⟨"cn=a,dc=b", []⟩ rfl).1,
    (C10_dn_local_semantics.2.1 "dn" "CN=A,DC=B" ⟨"cn=a,dc=b", []⟩ rfl).1,
    C10_dn_local_semantics.2.2.1 "dn" (some "gt") (.vstr "x") ⟨"cn=a,dc=b", []⟩ rfl rfl,
    C10_dn_local_semantics.2.2.1 "dn" (some "present") (.vbool true)
      ⟨"cn=a,dc=b", []⟩ rfl rfl⟩

end JasminLdap
